import Mathlib

/-!
# Movie-Data-Pipeline: shallow embedding of the enrichment core (src/ETL.py)

This file embeds the resumable, quota-bounded enrichment pipeline of the
repository: the helper `extract_title_year`, the per-row matching cascade
(exact query, title-only fallback with the `clean` normalizer, fuzzy search
with `max` over candidates scored by `difflib.SequenceMatcher.ratio`), and
the driving loop with its request counter (`requests_used`, ceiling
`MAX_REQUESTS_PER_DAY = 1000`), its checkpoint file (`progress.json`) and its
ambiguity log (`fuzzy_matches.json`).

Modelling conventions:
* Python strings are Lean `String`s; slicing/`in`/`replace`/`strip` are
  carried out on the underlying `List Char` so that everything reduces.
* The HTTP layer (requests + requests_cache + Retry) is an `Oracle`: each of
  the three query shapes maps parameters to `none` (an exception escaping the
  transport retries, i.e. a transport error) or `some` response carrying the
  parsed JSON fields together with the observable `from_cache` flag.
* An externally induced interruption (the process being killed between rows)
  is modelled by the `fuel` argument of `runLoop`; an uninterrupted run is a
  run whose fuel covers the remaining rows.
* The durable side of a run (contents of `progress.json` and
  `fuzzy_matches.json`) is an `FsState`; one invocation of the script is
  `runPass`, which reads the checkpoint, runs the loop on a freshly loaded
  catalog (enrichment columns initialized to `None`) and flushes the fuzzy
  log at the end unless the run was killed or died on an uncaught exception.
-/

namespace MovieETL

set_option maxRecDepth 8000

/-- Constant `MAX_REQUESTS_PER_DAY` from ETL.py. -/
def MAX_REQUESTS_PER_DAY : Nat := 1000

/-- The apostrophe character, one of the punctuation marks removed by `clean`. -/
def apos : Char := Char.ofNat 39

/-- Python `str.strip` on the character list (leading and trailing whitespace). -/
def trimL (l : List Char) : List Char :=
  ((l.dropWhile Char.isWhitespace).reverse.dropWhile Char.isWhitespace).reverse

/-- Python `s.replace(c, "")`: removing every occurrence of one character. -/
def removeChar (l : List Char) (c : Char) : List Char :=
  l.filter (fun x => x ≠ c)

/-- Python `s.lower()` (ASCII case mapping, which is all the pipeline relies on). -/
def lowerS (s : String) : String :=
  ⟨s.data.map Char.toLower⟩

/-- The local `clean` normalizer of ETL.py (lines 124-133):
`t.lower().replace(",","").replace("'","").replace(":","").replace("-","").replace(".","").strip()`. -/
def clean (t : String) : String :=
  ⟨trimL (removeChar (removeChar (removeChar (removeChar (removeChar
      (t.data.map Char.toLower) ',') apos) ':') '-') '.')⟩

/-- Python `full_title.rsplit("(", 1)[0]`: the prefix before the last `(`
(the whole string when no `(` occurs). -/
def beforeLastParen (l : List Char) : List Char :=
  let r := l.reverse.dropWhile (fun c => c ≠ '(')
  match r with
  | [] => l
  | _ :: tail => tail.reverse

/-- Helper `extract_title_year` from ETL.py (lines 61-65):
if `"(" in full_title and ")" in full_title[-5:]` return
`(full_title.rsplit("(",1)[0].strip(), full_title[-5:-1])`, else
`(full_title, None)`. -/
def extract_title_year (full_title : String) : String × Option String :=
  let l := full_title.data
  let last5 := l.drop (l.length - 5)
  if l.contains '(' && last5.contains ')' then
    (⟨trimL (beforeLastParen l)⟩, some ⟨last5.take (last5.length - 1)⟩)
  else
    (full_title, none)

/-! ## difflib.SequenceMatcher

`SequenceMatcher(None, a, b).ratio()` is `2*M/T` where `T = len(a)+len(b)`
and `M` is the total size of the matched blocks found by the
Ratcliff-Obershelp recursion: find the longest matching block (earliest in
`a`, then earliest in `b`, among the longest), then recurse on the pieces to
its left and to its right.  (The `autojunk` heuristic for strings of length
≥ 200 is not modelled; no title in scope reaches it.)  When `T = 0` the
ratio is defined to be `1`. -/

/-- Length of the longest common prefix of two character lists. -/
def commonPrefixLen : List Char → List Char → Nat
  | a :: as, b :: bs => if a = b then commonPrefixLen as bs + 1 else 0
  | _, _ => 0

/-- Operation `find_longest_match` over whole lists: the triple `(i, j, k)` of the
longest matching block `a[i:i+k] = b[j:j+k]`, picking among maximal blocks
the least `i`, then the least `j`. -/
def lmatch (a b : List Char) : Nat × Nat × Nat :=
  (List.range a.length).foldl
    (fun best i =>
      (List.range b.length).foldl
        (fun best j =>
          let k := commonPrefixLen (a.drop i) (b.drop j)
          if best.2.2 < k then (i, j, k) else best)
        best)
    (0, 0, 0)

/-- Total matched size of the Ratcliff-Obershelp recursion.  The `fuel`
argument only serves termination; `fuel = a.length + b.length` always
suffices because each recursive call strictly shrinks the combined length. -/
def matchTotal (fuel : Nat) (a b : List Char) : Nat :=
  match fuel with
  | 0 => 0
  | fuel + 1 =>
    let m := lmatch a b
    if m.2.2 = 0 then 0
    else
      matchTotal fuel (a.take m.1) (b.take m.2.1) + m.2.2 +
        matchTotal fuel (a.drop (m.1 + m.2.2)) (b.drop (m.2.1 + m.2.2))

/-- Ratio `SequenceMatcher(None, a, b).ratio()` as a rational number. -/
def simScore (sa sb : String) : ℚ :=
  let a := sa.data
  let b := sb.data
  let total := a.length + b.length
  if total = 0 then 1 else (2 * (matchTotal total a b : ℚ)) / (total : ℚ)

/-- Python `max(l, key=f)` : `none` on the empty list (a `ValueError`),
otherwise the first element attaining the maximal key. -/
def pythonMax {α : Type} (f : α → ℚ) : List α → Option α
  | [] => none
  | x :: xs => some (xs.foldl (fun best m => if f best < f m then m else best) x)

/-! ## Data model -/

/-- One catalog row: the raw `title` from movies.csv and the three mutable
enrichment columns, initialized to `None` (ETL.py lines 74-76). -/
structure Row where
  title : String
  director : Option String
  plot : Option String
  boxOffice : Option String
  deriving DecidableEq, Repr

/-- One entry of `fuzzy_log` (`{"CSV Title", "Suggested Match", "Year", "Score"}`). -/
structure LogEntry where
  csvTitle : String
  suggested : String
  year : Option String
  score : ℚ
  deriving DecidableEq, Repr

/-- The three query shapes sent to the lookup service. -/
inductive Query
  | exact (title : String) (year : Option String)
  | titleOnly (title : String)
  | fuzzy (title : String)
  deriving DecidableEq, Repr

/-- How one issued call was served: from the local cache, live (consuming
quota), or failed in the transport layer (exception after retries). -/
inductive Served
  | cache
  | live
  | failed
  deriving DecidableEq, Repr

/-- One issued lookup call together with how it was served. -/
structure CallEv where
  q : Query
  served : Served
  deriving DecidableEq, Repr

/-- Whether a call event consumed quota (the `if not r.from_cache` test). -/
def CallEv.isLive (e : CallEv) : Bool :=
  match e.served with
  | .live => true
  | _ => false

/-- Number of live calls among a list of call events. -/
def liveCount (evs : List CallEv) : Nat :=
  evs.countP CallEv.isLive

/-- Parsed JSON body of an exact or title-only response: the `Response`
flag (`"True"`/`"False"` as a Bool), `Title` (default `""`), and the
`.get` fields, plus the observable `from_cache` attribute. -/
structure FieldResp where
  response : Bool
  rTitle : String
  director : Option String
  plot : Option String
  boxOffice : Option String
  year : Option String
  fromCache : Bool
  deriving DecidableEq, Repr

/-- One element of the `Search` list of a fuzzy response. -/
structure Candidate where
  cTitle : String
  cYear : String
  deriving DecidableEq, Repr

/-- Parsed JSON body of a fuzzy (search) response. -/
structure SearchResp where
  response : Bool
  search : List Candidate
  fromCache : Bool
  deriving DecidableEq, Repr

/-- The transport + cache layer (requests session with Retry and
requests_cache): each query shape yields `none` when the call raises after
transport-level retries are exhausted (a transport error), otherwise the
response.  A fixed oracle models a deterministic service together with a
cache state. -/
structure Oracle where
  exact : String → Option String → Option FieldResp
  titleOnly : String → Option FieldResp
  fuzzy : String → Option SearchResp

/-- Classification of a completed row, mirroring the distinct branches
(and their prints) in ETL.py. -/
inductive Outcome
  | exactMatch
  | titleOnlyMatch
  | mismatchLogged
  | fuzzyLogged
  | unresolved
  deriving DecidableEq, Repr

/-- The two `continue` branches: outcomes that resolve the row. -/
def Outcome.isResolved : Outcome → Bool
  | .exactMatch => true
  | .titleOnlyMatch => true
  | _ => false

/-- Result of one completed row of the cascade: the (possibly updated)
row, the entries appended to `fuzzy_log`, the branch taken, and the calls
issued. -/
structure RowOk where
  row : Row
  entries : List LogEntry
  outcome : Outcome
  events : List CallEv
  deriving DecidableEq, Repr

/-- The two uncaught exceptions that can escape a row: a transport error
from `session.get`, or the `ValueError` of `max` on an empty `Search` list. -/
inductive RowErr
  | transport
  | emptySearch
  deriving DecidableEq, Repr

/-- An aborted row: which exception escaped and the calls issued up to (and
including, marked `failed`) the abort. -/
structure RowAbortS where
  err : RowErr
  events : List CallEv
  deriving DecidableEq, Repr

/-- The per-row cascade, ETL.py lines 95-168: exact query (title + year),
then the title-only fallback compared through `clean`, then the fuzzy
search ranked by `SequenceMatcher.ratio`. -/
def processRow (o : Oracle) (row : Row) : Except RowAbortS RowOk :=
  let te := extract_title_year row.title
  let title := te.1
  let year := te.2
  match o.exact title year with
  | none => .error ⟨.transport, [⟨.exact title year, .failed⟩]⟩
  | some r1 =>
    let e1 : CallEv := ⟨.exact title year, if r1.fromCache then .cache else .live⟩
    if r1.response then
      .ok ⟨{ row with director := r1.director, plot := r1.plot, boxOffice := r1.boxOffice },
           [], .exactMatch, [e1]⟩
    else
      match o.titleOnly title with
      | none => .error ⟨.transport, [e1, ⟨.titleOnly title, .failed⟩]⟩
      | some r2 =>
        let e2 : CallEv := ⟨.titleOnly title, if r2.fromCache then .cache else .live⟩
        if r2.response then
          let returned_title := r2.rTitle
          if clean returned_title = clean title then
            .ok ⟨{ row with director := r2.director, plot := r2.plot, boxOffice := r2.boxOffice },
                 [], .titleOnlyMatch, [e1, e2]⟩
          else
            .ok ⟨row,
                 [⟨title, returned_title, r2.year, simScore (lowerS title) (lowerS returned_title)⟩],
                 .mismatchLogged, [e1, e2]⟩
        else
          match o.fuzzy title with
          | none => .error ⟨.transport, [e1, e2, ⟨.fuzzy title, .failed⟩]⟩
          | some r3 =>
            let e3 : CallEv := ⟨.fuzzy title, if r3.fromCache then .cache else .live⟩
            if r3.response then
              match pythonMax (fun m => simScore title m.cTitle) r3.search with
              | none => .error ⟨.emptySearch, [e1, e2, e3]⟩
              | some best =>
                .ok ⟨row,
                     [⟨title, best.cTitle, some best.cYear, simScore title best.cTitle⟩],
                     .fuzzyLogged, [e1, e2, e3]⟩
            else
              .ok ⟨row, [], .unresolved, [e1, e2, e3]⟩

/-- Why the loop of a run stopped: all rows done, the daily-limit `break`,
an external kill between rows (interruption), or an uncaught exception
(transport error / `ValueError`). -/
inductive StopReason
  | finished
  | budget
  | killed
  | transportErr
  | valueErr
  deriving DecidableEq, Repr

/-- The stop reason induced by an uncaught per-row exception. -/
def reasonOfErr : RowErr → StopReason
  | .transport => .transportErr
  | .emptySearch => .valueErr

/-- The trace record of one row whose processing began: its index, the
value of `requests_used` when it began, the calls it issued, and its
outcome (`none` when an exception aborted it). -/
structure RowTrace where
  index : Nat
  usedBefore : Nat
  events : List CallEv
  result : Option Outcome
  deriving DecidableEq, Repr

/-- Result of the enrichment loop: the in-memory catalog, the final
`requests_used`, the in-memory `fuzzy_log`, the durable content of
`progress.json`, why the loop stopped, and the trace of begun rows. -/
structure LoopResult where
  movies : List Row
  used : Nat
  log : List LogEntry
  progress : Option Nat
  reason : StopReason
  trace : List RowTrace
  deriving DecidableEq, Repr

/-- The default row used for the (unreachable) out-of-bounds access. -/
def defaultRow : Row := ⟨"", none, none, none⟩

/-- The enrichment loop, ETL.py lines 89-171:
`for index in range(start, len(movies))` with the daily-limit `break` at
the top of the body, one cascade per row, `continue` in the two resolved
branches, and otherwise the overwrite of `progress.json` with
`{"last_index": index}` at the bottom of the body.  `fuel` models an
external interruption: a kill between two rows. -/
def runLoop (o : Oracle) (fuel : Nat) (movies : List Row) (used : Nat)
    (log : List LogEntry) (progress : Option Nat) (index : Nat) : LoopResult :=
  match fuel with
  | 0 =>
    if movies.length ≤ index then ⟨movies, used, log, progress, .finished, []⟩
    else ⟨movies, used, log, progress, .killed, []⟩
  | fuel + 1 =>
    if movies.length ≤ index then ⟨movies, used, log, progress, .finished, []⟩
    else if MAX_REQUESTS_PER_DAY ≤ used then ⟨movies, used, log, progress, .budget, []⟩
    else
      let row := movies.getD index defaultRow
      match processRow o row with
      | .error a =>
        ⟨movies, used + liveCount a.events, log, progress, reasonOfErr a.err,
         [⟨index, used, a.events, none⟩]⟩
      | .ok s =>
        let r := runLoop o fuel (movies.set index s.row) (used + liveCount s.events)
            (log ++ s.entries)
            (if s.outcome.isResolved then progress else some index) (index + 1)
        { r with trace := ⟨index, used, s.events, some s.outcome⟩ :: r.trace }

/-- The durable files of the pipeline: `progress.json` (`none` = absent)
and `fuzzy_matches.json` (`none` = never written). -/
structure FsState where
  progressFile : Option Nat
  fuzzyFile : Option (List LogEntry)
  deriving DecidableEq, Repr

/-- A freshly loaded catalog: every enrichment column `None` (lines 74-76). -/
def initMovies (catalog : List String) : List Row :=
  catalog.map (fun t => ⟨t, none, none, none⟩)

/-- Result of one invocation of the script (extract phase). -/
structure PassResult where
  movies : List Row
  used : Nat
  log : List LogEntry
  reason : StopReason
  trace : List RowTrace
  fs : FsState
  deriving DecidableEq, Repr

/-- One invocation of the script: read `progress.json` (`.get("last_index", 0)`,
absence meaning index 0), run the loop from there with `requests_used = 0`
and an empty `fuzzy_log`, then — unless the run was killed or died on an
uncaught exception — overwrite `fuzzy_matches.json` when the log is
non-empty (lines 79-180). -/
def runPass (o : Oracle) (catalog : List String) (fs : FsState) (fuel : Nat) : PassResult :=
  let start_index := fs.progressFile.getD 0
  let r := runLoop o fuel (initMovies catalog) 0 [] fs.progressFile start_index
  { movies := r.movies, used := r.used, log := r.log, reason := r.reason, trace := r.trace,
    fs := { progressFile := r.progress,
            fuzzyFile :=
              if (r.reason = .finished ∨ r.reason = .budget) ∧ r.log ≠ [] then some r.log
              else fs.fuzzyFile } }

/-! ## Derived notions used in the statements -/

/-- An oracle on which no call raises: every query gets a response, and a
fuzzy response with `Response == "True"` carries a non-empty `Search` list
(the shape the OMDB service documents). -/
structure OracleTotal (o : Oracle) : Prop where
  exactSome : ∀ t y, (o.exact t y).isSome
  titleSome : ∀ t, (o.titleOnly t).isSome
  fuzzySome : ∀ t, (o.fuzzy t).isSome
  fuzzyNonempty : ∀ t r, o.fuzzy t = some r → r.response = true → r.search ≠ []

/-- The completed-row value of the cascade (meaningful when the cascade
does not raise; the fallback branch is never reached on a total oracle). -/
def cascadeOk (o : Oracle) (row : Row) : RowOk :=
  match processRow o row with
  | .ok s => s
  | .error _ => ⟨row, [], .unresolved, []⟩

/-- All calls issued by the traced rows, in order. -/
def allEvents (ts : List RowTrace) : List CallEv :=
  (ts.map RowTrace.events).flatten

/-- The per-call budget ledger of a trace, starting from counter value `u`:
each begun row saw the current counter, began strictly below the ceiling,
and the counter then grew by exactly the number of live calls of the row
(one per live call, zero per cache-served or failed call). -/
def usedChainB : Nat → List RowTrace → Bool
  | _, [] => true
  | u, t :: ts =>
    (t.usedBefore == u) && decide (t.usedBefore < MAX_REQUESTS_PER_DAY) &&
      usedChainB (u + liveCount t.events) ts

/-- Whether a trace entry is a row that completed with a resolved outcome. -/
def RowTrace.resolvedB (t : RowTrace) : Bool :=
  match t.result with
  | some out => out.isResolved
  | none => false

/-- The index of the last traced row that executed the checkpoint write
(completed with a non-resolved outcome), if any. -/
def lastCkpt : List RowTrace → Option Nat
  | [] => none
  | t :: ts =>
    match lastCkpt ts with
    | some k => some k
    | none =>
      match t.result with
      | some out => if out.isResolved then none else some t.index
      | none => none

/-- The `fuzzy_log` entries a list of fresh rows contributes, in order. -/
def logSeg (o : Oracle) (rows : List Row) : List LogEntry :=
  (rows.map (fun r => (cascadeOk o r).entries)).flatten

/-- The first call a cascade run issued. -/
def firstCall : Except RowAbortS RowOk → Option Query
  | .ok s => s.events.head?.map CallEv.q
  | .error a => a.events.head?.map CallEv.q

/-- A raw title that ends in a parenthesized 4-digit year, read off the
claim: the last six characters are `(`, four digits, `)`. -/
def parenYearSuffix (t : String) : Bool :=
  let l := t.data
  match l.drop (l.length - 6) with
  | c :: rest =>
    (l.length ≥ 6 : Bool) && c = '(' && rest.length = 5 &&
      rest.getLast? = some ')' && (rest.take 4).all Char.isDigit
  | [] => false

/-! ## Concrete environments for witnesses and counterexamples -/

/-- Initial filesystem: no checkpoint, no fuzzy log. -/
def fs0 : FsState := ⟨none, none⟩

/-- A service that answers every query live with a miss: every row costs
three live calls and ends unresolved. -/
def oUnres : Oracle where
  exact _ _ := some ⟨false, "", none, none, none, none, false⟩
  titleOnly _ := some ⟨false, "", none, none, none, none, false⟩
  fuzzy _ := some ⟨false, [], false⟩

/-- A service on which every exact query hits. -/
def oRes : Oracle where
  exact _ _ := some ⟨true, "X", some "d", some "p", some "b", some "1999", false⟩
  titleOnly _ := some ⟨false, "", none, none, none, none, false⟩
  fuzzy _ := some ⟨false, [], false⟩

/-- Titles A and C hit exactly; B misses exactly and gets a title-only
answer whose title does not normalize to B (a mismatch). -/
def oABC : Oracle where
  exact t _ :=
    if t = "B" then some ⟨false, "", none, none, none, none, false⟩
    else some ⟨true, t, some "dir", some "plot", some "box", some "1999", false⟩
  titleOnly t :=
    if t = "B" then some ⟨true, "BB", some "d2", some "p2", some "b2", some "1998", false⟩
    else some ⟨false, "", none, none, none, none, false⟩
  fuzzy _ := some ⟨false, [], false⟩

/-- The three-row catalog used with `oABC`. -/
def catABC : List String := ["A", "B", "C"]

/-- Exact misses, title-only answers "dr strangelove": a title-only match
for the catalog title "Dr. Strangelove" after normalization. -/
def oDr : Oracle where
  exact _ _ := some ⟨false, "", none, none, none, none, false⟩
  titleOnly _ := some ⟨true, "dr strangelove", some "Kubrick", some "pl", some "bo", some "1964", false⟩
  fuzzy _ := some ⟨false, [], false⟩

/-- Exact and title-only miss; the fuzzy search answers with candidates. -/
def oFz : Oracle where
  exact _ _ := some ⟨false, "", none, none, none, none, false⟩
  titleOnly _ := some ⟨false, "", none, none, none, none, false⟩
  fuzzy _ := some ⟨true, [⟨"Upx", "2009"⟩, ⟨"Up", "2009"⟩], false⟩

/-- Exact and title-only miss; the fuzzy search claims success with an
empty `Search` list (the malformed shape behind the `ValueError`). -/
def oEmpty : Oracle where
  exact _ _ := some ⟨false, "", none, none, none, none, false⟩
  titleOnly _ := some ⟨false, "", none, none, none, none, false⟩
  fuzzy _ := some ⟨true, [], false⟩

/-- Row 0 ("A") resolves exactly from cache; the exact query for any other
title raises a transport error. -/
def oT : Oracle where
  exact t _ :=
    if t = "A" then some ⟨true, "A", some "d", some "p", some "b", some "1999", true⟩
    else none
  titleOnly _ := some ⟨false, "", none, none, none, none, false⟩
  fuzzy _ := some ⟨false, [], false⟩

/-! ## Cascade-level lemmas -/

lemma processRow_ok_events_le (o : Oracle) (row : Row) (s : RowOk)
    (h : processRow o row = .ok s) : s.events.length ≤ 3 := by
  simp only [processRow] at h
  repeat' split at h
  all_goals cases h
  all_goals simp only [List.length_cons, List.length_nil] ; omega

lemma processRow_err_events_le (o : Oracle) (row : Row) (a : RowAbortS)
    (h : processRow o row = .error a) : a.events.length ≤ 3 := by
  simp only [processRow] at h
  repeat' split at h
  all_goals cases h
  all_goals simp only [List.length_cons, List.length_nil] ; omega

lemma processRow_frame (o : Oracle) (row : Row) (s : RowOk)
    (h : processRow o row = .ok s) (hr : s.outcome.isResolved = false) : s.row = row := by
  simp only [processRow] at h
  repeat' split at h
  all_goals cases h
  all_goals simp_all [Outcome.isResolved]

lemma pythonMax_isSome {α : Type} (f : α → ℚ) (l : List α) (h : l ≠ []) :
    (pythonMax f l).isSome = true := by
  cases l with
  | nil => exact absurd rfl h
  | cons x xs => simp [pythonMax]

lemma pythonMax_eq_none {α : Type} (f : α → ℚ) (l : List α) :
    pythonMax f l = none ↔ l = [] := by
  cases l <;> simp [pythonMax]

lemma processRow_no_error (o : Oracle) (ht : OracleTotal o) (row : Row) (a : RowAbortS) :
    processRow o row ≠ .error a := by
  intro h
  simp only [processRow] at h
  cases he1 : o.exact (extract_title_year row.title).1 (extract_title_year row.title).2 with
  | none => have h1 := ht.exactSome (extract_title_year row.title).1 (extract_title_year row.title).2
            rw [he1] at h1; simp at h1
  | some r1 =>
    simp only [he1] at h
    by_cases hb1 : r1.response = true
    · simp only [hb1, if_true] at h
      cases h
    · rw [if_neg hb1] at h
      cases he2 : o.titleOnly (extract_title_year row.title).1 with
      | none => have h2 := ht.titleSome (extract_title_year row.title).1
                rw [he2] at h2; simp at h2
      | some r2 =>
        simp only [he2] at h
        by_cases hb2 : r2.response = true
        · simp only [hb2, if_true] at h
          split at h <;> cases h
        · rw [if_neg hb2] at h
          cases he3 : o.fuzzy (extract_title_year row.title).1 with
          | none => have h3 := ht.fuzzySome (extract_title_year row.title).1
                    rw [he3] at h3; simp at h3
          | some r3 =>
            simp only [he3] at h
            by_cases hb3 : r3.response = true
            · simp only [hb3, if_true] at h
              cases hm : pythonMax (fun m => simScore (extract_title_year row.title).1 m.cTitle) r3.search with
              | none =>
                have hne := ht.fuzzyNonempty (extract_title_year row.title).1 r3 he3 hb3
                exact hne ((pythonMax_eq_none _ _).mp hm)
              | some best => simp only [hm] at h; cases h
            · rw [if_neg hb3] at h
              cases h

lemma processRow_eq_ok (o : Oracle) (ht : OracleTotal o) (row : Row) :
    processRow o row = .ok (cascadeOk o row) := by
  unfold cascadeOk
  cases hp : processRow o row with
  | ok s => rfl
  | error a => exact absurd hp (processRow_no_error o ht row a)

lemma processRow_no_emptySearch (o : Oracle)
    (hfz : ∀ t r, o.fuzzy t = some r → r.response = true → r.search ≠ [])
    (row : Row) (a : RowAbortS) (h : processRow o row = .error a) : a.err ≠ .emptySearch := by
  intro heq
  simp only [processRow] at h
  cases he1 : o.exact (extract_title_year row.title).1 (extract_title_year row.title).2 with
  | none => simp only [he1] at h; cases h; cases heq
  | some r1 =>
    simp only [he1] at h
    by_cases hb1 : r1.response = true
    · simp only [hb1, if_true] at h; cases h
    · rw [if_neg hb1] at h
      cases he2 : o.titleOnly (extract_title_year row.title).1 with
      | none => simp only [he2] at h; cases h; cases heq
      | some r2 =>
        simp only [he2] at h
        by_cases hb2 : r2.response = true
        · simp only [hb2, if_true] at h
          split at h <;> cases h
        · rw [if_neg hb2] at h
          cases he3 : o.fuzzy (extract_title_year row.title).1 with
          | none => simp only [he3] at h; cases h; cases heq
          | some r3 =>
            simp only [he3] at h
            by_cases hb3 : r3.response = true
            · simp only [hb3, if_true] at h
              cases hm : pythonMax (fun m => simScore (extract_title_year row.title).1 m.cTitle) r3.search with
              | none =>
                exact hfz (extract_title_year row.title).1 r3 he3 hb3 ((pythonMax_eq_none _ _).mp hm)
              | some best => simp only [hm] at h; cases h
            · rw [if_neg hb3] at h; cases h

lemma runLoop_no_valueErr (o : Oracle)
    (hfz : ∀ t r, o.fuzzy t = some r → r.response = true → r.search ≠ []) :
    ∀ fuel movies used log progress index,
      (runLoop o fuel movies used log progress index).reason ≠ .valueErr := by
  intro fuel
  induction fuel with
  | zero =>
    intro movies used log progress index
    simp only [runLoop]
    split <;> simp
  | succ f ih =>
    intro movies used log progress index
    simp only [runLoop]
    split
    · simp
    · split
      · simp
      · cases hp : processRow o (movies.getD index defaultRow) with
        | error a =>
          simp only [hp]
          have hne := processRow_no_emptySearch o hfz _ a hp
          cases ha : a.err with
          | transport => simp [reasonOfErr, ha]
          | emptySearch => exact absurd ha hne
        | ok s =>
          simp only [hp]
          exact ih _ _ _ _ _

/-! ## Claim theorems: cascade level (C5, C6, C10) -/

/-- C5: for every row, if the exact (title + year) query returns Found
(`Response == "True"`), the row's outcome is Resolved via the exact branch,
with director, plot and boxOffice taken only from that response, and the
single exact call is the only query issued for the row (no title-only, no
fuzzy search). -/
theorem C5_exact_precedence (o : Oracle) (row : Row) (r1 : FieldResp)
    (h1 : o.exact (extract_title_year row.title).1 (extract_title_year row.title).2 = some r1)
    (h2 : r1.response = true) :
    processRow o row =
      .ok ⟨{ row with director := r1.director, plot := r1.plot, boxOffice := r1.boxOffice },
        [], .exactMatch,
        [⟨.exact (extract_title_year row.title).1 (extract_title_year row.title).2,
          if r1.fromCache then .cache else .live⟩]⟩ := by
  unfold processRow
  simp only [h1, h2, if_true]

/-- Witness for C5 at a concrete oracle and row. -/
theorem C5_exact_precedence_witness :
    processRow oABC ⟨"A", none, none, none⟩ =
      .ok ⟨⟨"A", some "dir", some "plot", some "box"⟩, [], .exactMatch,
        [⟨.exact "A" none, .live⟩]⟩ := by
  exact C5_exact_precedence oABC ⟨"A", none, none, none⟩
    ⟨true, "A", some "dir", some "plot", some "box", some "1999", false⟩ rfl rfl

/-- C6: `clean` lowercases and removes the punctuation `, ' : - .`, making
`clean "Dr. Strangelove" = clean "dr strangelove"`; a title-only response
whose cleaned title equals the cleaned catalog title resolves the row
(fields from that response, nothing logged), and otherwise the row's
outcome is MismatchLogged with a single ambiguity entry carrying the
`SequenceMatcher` similarity score of the two lowercased titles. -/
theorem C6_normalization :
    clean "Dr. Strangelove" = clean "dr strangelove" ∧
    (∀ (o : Oracle) (row : Row) (r1 r2 : FieldResp),
      o.exact (extract_title_year row.title).1 (extract_title_year row.title).2 = some r1 →
      r1.response = false →
      o.titleOnly (extract_title_year row.title).1 = some r2 →
      r2.response = true →
      clean r2.rTitle = clean (extract_title_year row.title).1 →
      processRow o row =
        .ok ⟨{ row with director := r2.director, plot := r2.plot, boxOffice := r2.boxOffice },
          [], .titleOnlyMatch,
          [⟨.exact (extract_title_year row.title).1 (extract_title_year row.title).2,
            if r1.fromCache then .cache else .live⟩,
           ⟨.titleOnly (extract_title_year row.title).1,
            if r2.fromCache then .cache else .live⟩]⟩) ∧
    (∀ (o : Oracle) (row : Row) (r1 r2 : FieldResp),
      o.exact (extract_title_year row.title).1 (extract_title_year row.title).2 = some r1 →
      r1.response = false →
      o.titleOnly (extract_title_year row.title).1 = some r2 →
      r2.response = true →
      clean r2.rTitle ≠ clean (extract_title_year row.title).1 →
      processRow o row =
        .ok ⟨row,
          [⟨(extract_title_year row.title).1, r2.rTitle, r2.year,
            simScore (lowerS (extract_title_year row.title).1) (lowerS r2.rTitle)⟩],
          .mismatchLogged,
          [⟨.exact (extract_title_year row.title).1 (extract_title_year row.title).2,
            if r1.fromCache then .cache else .live⟩,
           ⟨.titleOnly (extract_title_year row.title).1,
            if r2.fromCache then .cache else .live⟩]⟩) := by
  refine ⟨by decide, ?_, ?_⟩
  · intro o row r1 r2 h1 h2 h3 h4 h5
    unfold processRow
    simp only [h1, h2, h3, h4, h5, if_true, Bool.false_eq_true, if_false]
  · intro o row r1 r2 h1 h2 h3 h4 h5
    unfold processRow
    simp only [h1, h2, h3, h4, if_true, Bool.false_eq_true, if_false, if_neg h5]

/-- Witness for C6 parts with hypotheses: the title-only match branch for
"Dr. Strangelove" against the returned "dr strangelove", and the mismatch
branch for "B" against the returned "BB". -/
theorem C6_normalization_witness :
    processRow oDr ⟨"Dr. Strangelove", none, none, none⟩ =
      .ok ⟨⟨"Dr. Strangelove", some "Kubrick", some "pl", some "bo"⟩, [], .titleOnlyMatch,
        [⟨.exact "Dr. Strangelove" none, .live⟩, ⟨.titleOnly "Dr. Strangelove", .live⟩]⟩ ∧
    processRow oABC ⟨"B", none, none, none⟩ =
      .ok ⟨⟨"B", none, none, none⟩,
        [⟨"B", "BB", some "1998", simScore (lowerS "B") (lowerS "BB")⟩], .mismatchLogged,
        [⟨.exact "B" none, .live⟩, ⟨.titleOnly "B", .live⟩]⟩ := by
  constructor
  · exact C6_normalization.2.1 oDr ⟨"Dr. Strangelove", none, none, none⟩
      ⟨false, "", none, none, none, none, false⟩
      ⟨true, "dr strangelove", some "Kubrick", some "pl", some "bo", some "1964", false⟩
      rfl rfl rfl rfl (by decide)
  · exact C6_normalization.2.2 oABC ⟨"B", none, none, none⟩
      ⟨false, "", none, none, none, none, false⟩
      ⟨true, "BB", some "d2", some "p2", some "b2", some "1998", false⟩
      rfl rfl rfl rfl (by decide)

/-- C10: Python `max` over the fuzzy candidates is total exactly on
non-empty lists: it yields a candidate on every non-empty list; under the
precondition that every fuzzy response with `Response == "True"` carries a
non-empty `Search` list, the cascade never aborts on the empty-list
`ValueError` and no run ever stops with that error; and on an empty
candidate list the selection has no defined result (`none`). -/
theorem C10_fuzzy_selection_safety :
    (∀ (α : Type) (f : α → ℚ) (l : List α), l ≠ [] → (pythonMax f l).isSome = true) ∧
    (∀ (o : Oracle),
      (∀ t r, o.fuzzy t = some r → r.response = true → r.search ≠ []) →
      (∀ (row : Row) (a : RowAbortS), processRow o row = .error a → a.err ≠ .emptySearch) ∧
      (∀ fuel movies used log progress index,
        (runLoop o fuel movies used log progress index).reason ≠ .valueErr)) ∧
    (∀ (α : Type) (f : α → ℚ), pythonMax f ([] : List α) = none) := by
  refine ⟨fun α f l h => pythonMax_isSome f l h, ?_, fun α f => rfl⟩
  intro o hfz
  exact ⟨fun row a h => processRow_no_emptySearch o hfz row a h,
         fun fuel movies used log progress index => runLoop_no_valueErr o hfz fuel movies used log progress index⟩

/-- Witness for C10: the non-empty selection on `oFz`'s candidate list is
defined, and a run over `oFz` never stops with a `ValueError`. -/
theorem C10_fuzzy_selection_safety_witness :
    (pythonMax (fun m => simScore "Up" m.cTitle) ([⟨"Upx", "2009"⟩, ⟨"Up", "2009"⟩] : List Candidate)).isSome = true ∧
    (runPass oFz ["Up"] fs0 5).reason ≠ .valueErr := by
  constructor
  · exact C10_fuzzy_selection_safety.1 Candidate (fun m => simScore "Up" m.cTitle)
      ([⟨"Upx", "2009"⟩, ⟨"Up", "2009"⟩] : List Candidate) (by decide)
  · exact (C10_fuzzy_selection_safety.2.1 oFz
      (by intro t r h hr; cases h; simp)).2 5 (initMovies ["Up"]) 0 [] none 0

/-! ## Loop-level lemmas: budget accounting -/

lemma allEvents_nil : allEvents [] = [] := rfl

lemma allEvents_cons (t : RowTrace) (ts : List RowTrace) :
    allEvents (t :: ts) = t.events ++ allEvents ts := by
  simp [allEvents]

lemma liveCount_nil : liveCount [] = 0 := rfl

lemma liveCount_append (a b : List CallEv) :
    liveCount (a ++ b) = liveCount a + liveCount b :=
  List.countP_append _ _ _

lemma runLoop_used_accounting (o : Oracle) :
    ∀ fuel movies used log progress index,
      usedChainB used (runLoop o fuel movies used log progress index).trace = true ∧
      (runLoop o fuel movies used log progress index).used =
        used + liveCount (allEvents (runLoop o fuel movies used log progress index).trace) := by
  intro fuel
  induction fuel with
  | zero =>
    intro movies used log progress index
    simp only [runLoop]
    split <;> simp [usedChainB, allEvents, liveCount]
  | succ f ih =>
    intro movies used log progress index
    simp only [runLoop]
    split
    · simp [usedChainB, allEvents, liveCount]
    · split
      · simp [usedChainB, allEvents, liveCount]
      · rename_i h1 h2
        cases hp : processRow o (movies.getD index defaultRow) with
        | error a =>
          simp only [hp]
          refine ⟨?_, ?_⟩
          · simp [usedChainB, liveCount]
            omega
          · rw [allEvents_cons, allEvents_nil, liveCount_append, liveCount_nil]
            dsimp only
            omega
        | ok s =>
          simp only [hp]
          obtain ⟨ih1, ih2⟩ := ih (movies.set index s.row) (used + liveCount s.events)
            (log ++ s.entries) (if s.outcome.isResolved = true then progress else some index) (index + 1)
          refine ⟨?_, ?_⟩
          · simp [usedChainB, ih1]
            omega
          · rw [allEvents_cons, liveCount_append]
            dsimp only
            omega

lemma runLoop_used_le (o : Oracle) :
    ∀ fuel movies used log progress index, used ≤ MAX_REQUESTS_PER_DAY + 2 →
      (runLoop o fuel movies used log progress index).used ≤ MAX_REQUESTS_PER_DAY + 2 := by
  intro fuel
  induction fuel with
  | zero =>
    intro movies used log progress index h
    simp only [runLoop]
    split <;> simpa
  | succ f ih =>
    intro movies used log progress index h
    simp only [runLoop]
    split
    · simpa
    · split
      · simpa
      · rename_i h1 h2
        cases hp : processRow o (movies.getD index defaultRow) with
        | error a =>
          simp only [hp]
          have h3 := processRow_err_events_le o _ a hp
          have h4 : liveCount a.events ≤ 3 := le_trans (List.countP_le_length _) h3
          try dsimp only
          simp only [MAX_REQUESTS_PER_DAY] at *
          omega
        | ok s =>
          simp only [hp]
          have h3 := processRow_ok_events_le o _ s hp
          have h4 : liveCount s.events ≤ 3 := le_trans (List.countP_le_length _) h3
          try dsimp only
          refine ih _ _ _ _ _ ?_
          simp only [MAX_REQUESTS_PER_DAY] at *
          omega

/-- C1 (amended): over any invocation, the request ledger holds: every
begun row saw the then-current counter and began strictly below the
ceiling, the counter grew by exactly one per live call and zero per
cache-served (or failed) call, the final counter is exactly the number of
live calls of the run, and it never exceeds `ceiling + 2` (the two
possible mid-row calls after the ceiling is hit). -/
theorem C1_budget_accounting (o : Oracle) (catalog : List String) (fs : FsState) (fuel : Nat) :
    usedChainB 0 (runPass o catalog fs fuel).trace = true ∧
    (runPass o catalog fs fuel).used = liveCount (allEvents (runPass o catalog fs fuel).trace) ∧
    (runPass o catalog fs fuel).used ≤ MAX_REQUESTS_PER_DAY + 2 := by
  unfold runPass
  dsimp only
  obtain ⟨h1, h2⟩ := runLoop_used_accounting o fuel (initMovies catalog) 0 []
    fs.progressFile (fs.progressFile.getD 0)
  refine ⟨h1, by simpa using h2, runLoop_used_le o fuel _ 0 _ _ _ (by omega)⟩

/-- C1 counterexample: with 334 rows each costing three live calls, the
counter finishes at 1002 — the run exceeds the ceiling of 1000, because
the daily-limit check only guards the top of a row, not the calls inside
one. -/
theorem C1_counterexample :
    MAX_REQUESTS_PER_DAY < (runPass oUnres (List.replicate 334 "a") fs0 400).used := by
  have h : (runPass oUnres (List.replicate 334 "a") fs0 400).used = 1002 := by decide
  rw [h]
  decide

lemma runLoop_progress_eq (o : Oracle) :
    ∀ fuel movies used log progress index,
      (runLoop o fuel movies used log progress index).progress =
        match lastCkpt (runLoop o fuel movies used log progress index).trace with
        | some k => some k
        | none => progress := by
  intro fuel
  induction fuel with
  | zero =>
    intro movies used log progress index
    simp only [runLoop]
    split <;> simp [lastCkpt]
  | succ f ih =>
    intro movies used log progress index
    simp only [runLoop]
    split
    · simp [lastCkpt]
    · split
      · simp [lastCkpt]
      · cases hp : processRow o (movies.getD index defaultRow) with
        | error a =>
          simp only [hp]
          simp [lastCkpt]
        | ok s =>
          simp only [hp]
          try dsimp only
          cases hres : s.outcome.isResolved with
          | true =>
            simp only [hres, if_true]
            have ihx := ih (movies.set index s.row) (used + liveCount s.events)
              (log ++ s.entries) progress (index + 1)
            cases hlk : lastCkpt (runLoop o f (movies.set index s.row) (used + liveCount s.events)
                (log ++ s.entries) progress (index + 1)).trace with
            | some k => rw [hlk] at ihx; simp [lastCkpt, hlk, ihx, hres]
            | none => rw [hlk] at ihx; simp [lastCkpt, hlk, ihx, hres]
          | false =>
            simp only [hres, Bool.false_eq_true, if_false]
            have ihx := ih (movies.set index s.row) (used + liveCount s.events)
              (log ++ s.entries) (some index) (index + 1)
            cases hlk : lastCkpt (runLoop o f (movies.set index s.row) (used + liveCount s.events)
                (log ++ s.entries) (some index) (index + 1)).trace with
            | some k => rw [hlk] at ihx; simp [lastCkpt, hlk, ihx, hres]
            | none => rw [hlk] at ihx; simp [lastCkpt, hlk, ihx, hres]

/-- C2 (amended): the checkpoint file after an invocation records the
index of the last processed row whose outcome was non-resolved
(MismatchLogged, FuzzyLogged or Unresolved); rows resolved by the exact or
title-only branch skip the write (their `continue` bypasses it), so when
every processed row resolved, the file keeps its prior content. -/
theorem C2_checkpoint_last_nonresolved (o : Oracle) (catalog : List String)
    (fs : FsState) (fuel : Nat) :
    (runPass o catalog fs fuel).fs.progressFile =
      match lastCkpt (runPass o catalog fs fuel).trace with
      | some k => some k
      | none => fs.progressFile := by
  unfold runPass
  dsimp only
  exact runLoop_progress_eq o fuel _ _ _ _ _

/-- C2 counterexample: a one-row catalog whose row resolves exactly: the
row is processed and its outcome applied, yet `progress.json` is never
written — the claimed per-row checkpoint does not happen for resolved
rows. -/
theorem C2_counterexample :
    (runPass oRes ["x"] fs0 10).trace.map RowTrace.index = [0] ∧
    (runPass oRes ["x"] fs0 10).movies = [⟨"x", some "d", some "p", some "b"⟩] ∧
    (runPass oRes ["x"] fs0 10).fs.progressFile = none := by
  decide

lemma runLoop_trace_head (o : Oracle) (fuel : Nat) (movies : List Row) (used : Nat)
    (log : List LogEntry) (progress : Option Nat) (index : Nat)
    (hidx : index < movies.length) (hu : used < MAX_REQUESTS_PER_DAY) (hf : 1 ≤ fuel) :
    (runLoop o fuel movies used log progress index).trace.head?.map RowTrace.index = some index := by
  cases fuel with
  | zero => omega
  | succ f =>
    simp only [runLoop]
    rw [if_neg (by omega), if_neg (by omega)]
    cases hp : processRow o (movies.getD index defaultRow) <;> simp [hp]

/-- C3 (amended): when the checkpoint file is absent the run starts at
index 0 (this half of the claim holds); when it is present and records
`last_index = k` for a fully processed row `k`, the next invocation starts
AT `k` — not at `k + 1` — so the first row it processes is row `k` again:
an already fully processed row is reprocessed. -/
theorem C3_resume_at_checkpoint (o : Oracle) (catalog : List String)
    (fz : Option (List LogEntry)) (fuel : Nat) :
    (catalog ≠ [] → 1 ≤ fuel →
      (runPass o catalog ⟨none, fz⟩ fuel).trace.head?.map RowTrace.index = some 0) ∧
    (∀ k, k < catalog.length → 1 ≤ fuel →
      (runPass o catalog ⟨some k, fz⟩ fuel).trace.head?.map RowTrace.index = some k) := by
  constructor
  · intro hne hf
    unfold runPass
    dsimp only
    refine runLoop_trace_head o fuel _ 0 [] none 0 ?_ (by decide) hf
    simp only [initMovies, List.length_map]
    exact List.length_pos.mpr hne
  · intro k hk hf
    unfold runPass
    dsimp only
    refine runLoop_trace_head o fuel _ 0 [] (some k) k ?_ (by decide) hf
    simpa only [initMovies, List.length_map] using hk

/-- Witness for C3 (amended): with a checkpoint recording `last_index = 1`,
the first processed row of the next invocation is row 1 itself. -/
theorem C3_resume_at_checkpoint_witness :
    (runPass oABC catABC ⟨some 1, none⟩ 10).trace.head?.map RowTrace.index = some 1 :=
  (C3_resume_at_checkpoint oABC catABC none 10).2 1 (by decide) (by decide)

/-- C3 counterexample: the first pass fully processes rows 0 and 1 and
leaves `{"last_index": 1}`; the second pass processes rows 1 and 2 — row 1
is reprocessed, contradicting "resumes at the row following k and never
reprocesses a fully processed row". -/
theorem C3_counterexample :
    (runPass oABC catABC fs0 2).trace.map RowTrace.index = [0, 1] ∧
    (runPass oABC catABC fs0 2).fs.progressFile = some 1 ∧
    (runPass oABC catABC (runPass oABC catABC fs0 2).fs 10).trace.map RowTrace.index = [1, 2] := by
  decide

lemma runLoop_frame (o : Oracle) :
    ∀ fuel movies used log progress index i,
      (∀ t ∈ (runLoop o fuel movies used log progress index).trace,
        t.index = i → t.resolvedB = false) →
      (runLoop o fuel movies used log progress index).movies[i]? = movies[i]? := by
  intro fuel
  induction fuel with
  | zero =>
    intro movies used log progress index i h
    simp only [runLoop]
    split <;> rfl
  | succ f ih =>
    intro movies used log progress index i h
    by_cases h1 : movies.length ≤ index
    · simp only [runLoop, if_pos h1]
    · by_cases h2 : MAX_REQUESTS_PER_DAY ≤ used
      · simp only [runLoop, if_neg h1, if_pos h2]
      · cases hp : processRow o (movies.getD index defaultRow) with
        | error a =>
          simp only [runLoop, if_neg h1, if_neg h2, hp]
        | ok s =>
          simp only [runLoop, if_neg h1, if_neg h2, hp] at h ⊢
          try dsimp only at h ⊢
          have hrest : ∀ t ∈ (runLoop o f (movies.set index s.row) (used + liveCount s.events)
              (log ++ s.entries) (if s.outcome.isResolved = true then progress else some index)
              (index + 1)).trace, t.index = i → t.resolvedB = false := by
            intro t ht
            exact h t (List.mem_cons_of_mem _ ht)
          have hr := ih (movies.set index s.row) (used + liveCount s.events)
            (log ++ s.entries) (if s.outcome.isResolved = true then progress else some index)
            (index + 1) i hrest
          rw [hr]
          by_cases hii : index = i
          · subst hii
            have hent := h ⟨index, used, s.events, some s.outcome⟩ (List.mem_cons_self _ _) rfl
            have hres : s.outcome.isResolved = false := by
              simpa [RowTrace.resolvedB] using hent
            have hfr : s.row = movies.getD index defaultRow := processRow_frame o _ s hp hres
            have hlt : index < movies.length := by omega
            rw [hfr, List.getD_eq_getElem _ _ hlt, List.getElem?_set_self (by omega),
              List.getElem?_eq_getElem hlt]
          · rw [List.getElem?_set_ne hii]

/-- C9: the cascade mutates a row only in its two Resolved branches, and
the runner mutates only processed rows: whenever no trace entry for index
`i` completed with a resolved outcome (the row was mismatch-logged,
fuzzy-logged, unresolved, aborted, or simply never processed), row `i` of
the final in-memory catalog still has its freshly loaded value — title
unchanged, Director, Plot and BoxOffice still None. -/
theorem C9_frame_effect (o : Oracle) (catalog : List String) (fs : FsState) (fuel : Nat) :
    (∀ (row : Row) (s : RowOk),
      processRow o row = .ok s → s.outcome.isResolved = false → s.row = row) ∧
    (∀ i, (∀ t ∈ (runPass o catalog fs fuel).trace, t.index = i → t.resolvedB = false) →
      (runPass o catalog fs fuel).movies[i]? = (initMovies catalog)[i]?) := by
  constructor
  · exact fun row s hp hres => processRow_frame o row s hp hres
  · intro i h
    unfold runPass at h ⊢
    dsimp only at h ⊢
    exact runLoop_frame o fuel _ 0 [] fs.progressFile _ i h

/-- Witness for C9: the unresolved row of a one-row run keeps its null
enrichment fields. -/
theorem C9_frame_effect_witness :
    (runPass oUnres ["a"] fs0 10).movies[0]? = (initMovies ["a"])[0]? :=
  (C9_frame_effect oUnres ["a"] fs0 10).2 0 (by decide)

lemma runLoop_transport (o : Oracle) :
    ∀ fuel movies used log progress index,
      (∀ k, progress = some k → k ≤ index) →
      (runLoop o fuel movies used log progress index).reason = .transportErr →
      ∃ tl, (runLoop o fuel movies used log progress index).trace.getLast? = some tl ∧
        tl.result = none ∧ index ≤ tl.index ∧
        (∀ k, (runLoop o fuel movies used log progress index).progress = some k → k ≤ tl.index) ∧
        (runLoop o fuel movies used log progress index).movies[tl.index]? = movies[tl.index]? := by
  intro fuel
  induction fuel with
  | zero =>
    intro movies used log progress index hp hr
    simp only [runLoop] at hr
    split at hr <;> cases hr
  | succ f ih =>
    intro movies used log progress index hp hr
    by_cases h1 : movies.length ≤ index
    · simp only [runLoop, if_pos h1] at hr
      cases hr
    · by_cases h2 : MAX_REQUESTS_PER_DAY ≤ used
      · simp only [runLoop, if_neg h1, if_pos h2] at hr
        cases hr
      · cases hc : processRow o (movies.getD index defaultRow) with
        | error a =>
          simp only [runLoop, if_neg h1, if_neg h2, hc] at hr ⊢
          refine ⟨⟨index, used, a.events, none⟩, rfl, rfl, le_refl index,
            fun k hk => hp k hk, ?_⟩
          trivial
        | ok s =>
          simp only [runLoop, if_neg h1, if_neg h2, hc] at hr ⊢
          try dsimp only at hr ⊢
          have hp2 : ∀ k, (if s.outcome.isResolved = true then progress else some index) = some k →
              k ≤ index + 1 := by
            intro k hk
            by_cases hres : s.outcome.isResolved = true
            · rw [if_pos hres] at hk
              exact le_trans (hp k hk) (Nat.le_succ index)
            · rw [if_neg hres] at hk
              cases hk
              exact Nat.le_succ index
          obtain ⟨tl, htl1, htl2, htl3, htl4, htl5⟩ := ih (movies.set index s.row)
            (used + liveCount s.events) (log ++ s.entries)
            (if s.outcome.isResolved = true then progress else some index) (index + 1) hp2 hr
          refine ⟨tl, ?_, htl2, le_trans (Nat.le_succ index) htl3, htl4, ?_⟩
          · rw [List.getLast?_cons, htl1]
            rfl
          · rw [htl5, List.getElem?_set_ne (by omega)]

/-- C8: a transport error (the session raising after its transport-level
retries) aborts the row's cascade at once with that error: the failing
call is the last event, no outcome (in particular not Unresolved) is
recorded, no further call of that row consumes budget; the run stops, the
checkpoint is at most the failing row's index — never past it — and the
next invocation's start index is at most the failing row's index, so that
row is retried. -/
theorem C8_transport_stops_run :
    (∀ (o : Oracle) (row : Row),
      o.exact (extract_title_year row.title).1 (extract_title_year row.title).2 = none →
      processRow o row = .error ⟨.transport,
        [⟨.exact (extract_title_year row.title).1 (extract_title_year row.title).2, .failed⟩]⟩) ∧
    (∀ (o : Oracle) (row : Row) (r1 : FieldResp),
      o.exact (extract_title_year row.title).1 (extract_title_year row.title).2 = some r1 →
      r1.response = false →
      o.titleOnly (extract_title_year row.title).1 = none →
      processRow o row = .error ⟨.transport,
        [⟨.exact (extract_title_year row.title).1 (extract_title_year row.title).2,
          if r1.fromCache then .cache else .live⟩,
         ⟨.titleOnly (extract_title_year row.title).1, .failed⟩]⟩) ∧
    (∀ (o : Oracle) (row : Row) (r1 r2 : FieldResp),
      o.exact (extract_title_year row.title).1 (extract_title_year row.title).2 = some r1 →
      r1.response = false →
      o.titleOnly (extract_title_year row.title).1 = some r2 →
      r2.response = false →
      o.fuzzy (extract_title_year row.title).1 = none →
      processRow o row = .error ⟨.transport,
        [⟨.exact (extract_title_year row.title).1 (extract_title_year row.title).2,
          if r1.fromCache then .cache else .live⟩,
         ⟨.titleOnly (extract_title_year row.title).1,
          if r2.fromCache then .cache else .live⟩,
         ⟨.fuzzy (extract_title_year row.title).1, .failed⟩]⟩) ∧
    (∀ (o : Oracle) (catalog : List String) (fs : FsState) (fuel : Nat),
      (runPass o catalog fs fuel).reason = .transportErr →
      (runPass o catalog fs fuel).trace ≠ []) ∧
    (∀ (o : Oracle) (catalog : List String) (fs : FsState) (fuel : Nat) (tl : RowTrace),
      (runPass o catalog fs fuel).reason = .transportErr →
      (runPass o catalog fs fuel).trace.getLast? = some tl →
      tl.result = none ∧
      (∀ k, (runPass o catalog fs fuel).fs.progressFile = some k → k ≤ tl.index) ∧
      (runPass o catalog fs fuel).fs.progressFile.getD 0 ≤ tl.index ∧
      (runPass o catalog fs fuel).movies[tl.index]? = (initMovies catalog)[tl.index]? ∧
      (runPass o catalog fs fuel).fs.fuzzyFile = fs.fuzzyFile) := by
  refine ⟨?_, ?_, ?_, ?_, ?_⟩
  · intro o row h1
    unfold processRow
    simp only [h1]
  · intro o row r1 h1 h2 h3
    unfold processRow
    simp only [h1, h2, h3, Bool.false_eq_true, if_false]
  · intro o row r1 r2 h1 h2 h3 h4 h5
    unfold processRow
    simp only [h1, h2, h3, h4, h5, Bool.false_eq_true, if_false]
  · intro o catalog fs fuel hr
    have hp0 : ∀ k, fs.progressFile = some k → k ≤ fs.progressFile.getD 0 := by
      intro k hk
      rw [hk]
      rfl
    have hr2 : (runLoop o fuel (initMovies catalog) 0 [] fs.progressFile
        (fs.progressFile.getD 0)).reason = .transportErr := hr
    obtain ⟨tl, htl1, -, -, -, -⟩ := runLoop_transport o fuel (initMovies catalog) 0 []
      fs.progressFile (fs.progressFile.getD 0) hp0 hr2
    intro hnil
    have : (runPass o catalog fs fuel).trace.getLast? = some tl := htl1
    rw [hnil] at this
    cases this
  · intro o catalog fs fuel tl hr hlast
    have hp0 : ∀ k, fs.progressFile = some k → k ≤ fs.progressFile.getD 0 := by
      intro k hk
      rw [hk]
      rfl
    have hr2 : (runLoop o fuel (initMovies catalog) 0 [] fs.progressFile
        (fs.progressFile.getD 0)).reason = .transportErr := hr
    obtain ⟨tl2, htl1, htl2, htl3, htl4, htl5⟩ := runLoop_transport o fuel (initMovies catalog) 0 []
      fs.progressFile (fs.progressFile.getD 0) hp0 hr2
    have heq : tl = tl2 := by
      have h := hlast
      rw [show (runPass o catalog fs fuel).trace = (runLoop o fuel (initMovies catalog) 0 []
        fs.progressFile (fs.progressFile.getD 0)).trace from rfl] at h
      rw [htl1] at h
      exact (Option.some_injective _ h).symm
    subst heq
    refine ⟨htl2, ?_, ?_, htl5, ?_⟩
    · intro k hk
      exact htl4 k hk
    · cases hc : (runPass o catalog fs fuel).fs.progressFile with
      | none => simp [hc]
      | some k => simpa [hc, Option.getD] using htl4 k hc
    · show (if ((runLoop o fuel (initMovies catalog) 0 [] fs.progressFile
          (fs.progressFile.getD 0)).reason = .finished ∨ _) ∧ _ then _ else fs.fuzzyFile) = fs.fuzzyFile
      rw [if_neg]
      rw [hr2]
      simp

/-- Witness for C8: on `oT` the second row's exact call raises; the run
stops with a transport error, the checkpoint start for the next run is at
most 1, and row 1 is unmutated. -/
theorem C8_transport_stops_run_witness :
    (runPass oT ["A", "B"] fs0 10).fs.progressFile.getD 0 ≤ 1 ∧
    (runPass oT ["A", "B"] fs0 10).movies[1]? = (initMovies ["A", "B"])[1]? := by
  have h := C8_transport_stops_run.2.2.2.2 oT ["A", "B"] fs0 10 ⟨1, 0, [⟨.exact "B" none, .failed⟩], none⟩
    (by decide) (by decide)
  exact ⟨h.2.2.1, h.2.2.2.1⟩

lemma drop_succ_set {α : Type} : ∀ (l : List α) (i : Nat) (v : α),
    (l.set i v).drop (i + 1) = l.drop (i + 1)
  | [], _, _ => rfl
  | _ :: _, 0, _ => rfl
  | a :: as, i + 1, v => by
    show (a :: as.set i v).drop (i + 2) = (a :: as).drop (i + 2)
    simpa using drop_succ_set as i v

lemma logSeg_nil (o : Oracle) : logSeg o [] = [] := rfl

lemma logSeg_cons (o : Oracle) (r : Row) (rs : List Row) :
    logSeg o (r :: rs) = (cascadeOk o r).entries ++ logSeg o rs := by
  simp [logSeg]

lemma runLoop_complete (o : Oracle) (ht : OracleTotal o) :
    ∀ fuel movies used log progress index,
      movies.length ≤ index + fuel →
      used + 3 * (movies.length - index) ≤ MAX_REQUESTS_PER_DAY →
      (runLoop o fuel movies used log progress index).reason = .finished ∧
      (∀ i, i < index → (runLoop o fuel movies used log progress index).movies[i]? = movies[i]?) ∧
      (∀ i row, index ≤ i → movies[i]? = some row →
        (runLoop o fuel movies used log progress index).movies[i]? = some (cascadeOk o row).row) ∧
      (runLoop o fuel movies used log progress index).log = log ++ logSeg o (movies.drop index) := by
  intro fuel
  induction fuel with
  | zero =>
    intro movies used log progress index hfuel hbud
    have hlen : movies.length ≤ index := by omega
    have e : runLoop o 0 movies used log progress index =
        ⟨movies, used, log, progress, .finished, []⟩ := by
      simp only [runLoop, if_pos hlen]
    rw [e]
    refine ⟨rfl, fun i _ => rfl, ?_, ?_⟩
    · intro i row hi hrow
      rw [List.getElem?_eq_none (by omega)] at hrow
      cases hrow
    · rw [List.drop_eq_nil_of_le hlen, logSeg_nil, List.append_nil]
  | succ f ih =>
    intro movies used log progress index hfuel hbud
    by_cases h1 : movies.length ≤ index
    · have e : runLoop o (f + 1) movies used log progress index =
          ⟨movies, used, log, progress, .finished, []⟩ := by
        simp only [runLoop, if_pos h1]
      rw [e]
      refine ⟨rfl, fun i _ => rfl, ?_, ?_⟩
      · intro i row hi hrow
        rw [List.getElem?_eq_none (by omega)] at hrow
        cases hrow
      · rw [List.drop_eq_nil_of_le h1, logSeg_nil, List.append_nil]
    · have hlt : index < movies.length := by omega
      have h2 : ¬MAX_REQUESTS_PER_DAY ≤ used := by
        simp only [MAX_REQUESTS_PER_DAY] at *
        omega
      have hc : processRow o (movies.getD index defaultRow) =
          .ok (cascadeOk o (movies.getD index defaultRow)) := processRow_eq_ok o ht _
      have hev : liveCount (cascadeOk o (movies.getD index defaultRow)).events ≤ 3 :=
        le_trans (List.countP_le_length _) (processRow_ok_events_le o _ _ hc)
      simp only [runLoop, if_neg h1, if_neg h2, hc]
      try dsimp only
      obtain ⟨ihr, ihlo, ihhi, ihlog⟩ := ih
        (movies.set index (cascadeOk o (movies.getD index defaultRow)).row)
        (used + liveCount (cascadeOk o (movies.getD index defaultRow)).events)
        (log ++ (cascadeOk o (movies.getD index defaultRow)).entries)
        (if (cascadeOk o (movies.getD index defaultRow)).outcome.isResolved = true
          then progress else some index)
        (index + 1)
        (by rw [List.length_set]; omega)
        (by rw [List.length_set]; omega)
      refine ⟨ihr, ?_, ?_, ?_⟩
      · intro i hi
        rw [ihlo i (by omega), List.getElem?_set_ne (by omega)]
      · intro i row hi hrow
        by_cases hii : i = index
        · subst hii
          have hgd : movies.getD i defaultRow = row := by
            rw [List.getD_eq_getElem _ _ hlt]
            exact Option.some_injective _ ((List.getElem?_eq_getElem hlt).symm.trans hrow)
          rw [ihlo i (Nat.lt_succ_self i), List.getElem?_set_self hlt, hgd]
        · have hrow2 : (movies.set index
              (cascadeOk o (movies.getD index defaultRow)).row)[i]? = some row := by
            rw [List.getElem?_set_ne (by omega)]
            exact hrow
          exact ihhi i row (by omega) hrow2
      · rw [ihlog, drop_succ_set, List.drop_eq_getElem_cons hlt, logSeg_cons,
          List.append_assoc, List.getD_eq_getElem _ _ hlt]

lemma runLoop_movies_length (o : Oracle) :
    ∀ fuel movies used log progress index,
      (runLoop o fuel movies used log progress index).movies.length = movies.length := by
  intro fuel
  induction fuel with
  | zero =>
    intro movies used log progress index
    simp only [runLoop]
    split <;> rfl
  | succ f ih =>
    intro movies used log progress index
    by_cases h1 : movies.length ≤ index
    · simp only [runLoop, if_pos h1]
    · by_cases h2 : MAX_REQUESTS_PER_DAY ≤ used
      · simp only [runLoop, if_neg h1, if_pos h2]
      · cases hp : processRow o (movies.getD index defaultRow) with
        | error a => simp only [runLoop, if_neg h1, if_neg h2, hp]
        | ok s =>
          simp only [runLoop, if_neg h1, if_neg h2, hp]
          try dsimp only
          rw [ih, List.length_set]

lemma oABC_total : OracleTotal oABC := by
  refine ⟨?_, ?_, ?_, ?_⟩
  · intro t y
    unfold oABC
    dsimp only
    split <;> rfl
  · intro t
    unfold oABC
    dsimp only
    split <;> rfl
  · intro t
    rfl
  · intro t r h hr
    unfold oABC at h
    dsimp only at h
    cases h
    cases hr

/-- C4 (amended): with a total oracle and a budget ample for the whole
catalog (at most 333 rows, hence at most 999 live calls per pass), a
two-pass execution — pass one interrupted, pass two resumed from the
persisted checkpoint and run to completion — agrees with the uninterrupted
one-pass run only from the resume index onward; every row below the resume
index is left with null enrichment in the final pass's in-memory catalog
(each pass reloads the catalog afresh), so the claimed equality of the
final catalogs fails whenever the first pass resolved a row below the
final resume point. -/
theorem C4_pass_equivalence (o : Oracle) (catalog : List String) (f1 f2 : Nat)
    (ht : OracleTotal o) (hn : catalog.length ≤ 333) (hf : catalog.length ≤ f2) :
    (runPass o catalog ⟨none, none⟩ f2).reason = .finished ∧
    (runPass o catalog (runPass o catalog ⟨none, none⟩ f1).fs f2).reason = .finished ∧
    (∀ i, (runPass o catalog ⟨none, none⟩ f1).fs.progressFile.getD 0 ≤ i →
      (runPass o catalog (runPass o catalog ⟨none, none⟩ f1).fs f2).movies[i]? =
        (runPass o catalog ⟨none, none⟩ f2).movies[i]?) ∧
    (∀ i, i < (runPass o catalog ⟨none, none⟩ f1).fs.progressFile.getD 0 →
      (runPass o catalog (runPass o catalog ⟨none, none⟩ f1).fs f2).movies[i]? =
        (initMovies catalog)[i]?) := by
  have hlen : (initMovies catalog).length = catalog.length := by
    simp [initMovies]
  obtain ⟨hq1, hq2, hq3, hq4⟩ := runLoop_complete o ht f2 (initMovies catalog) 0 [] none 0
    (by omega) (by simp only [MAX_REQUESTS_PER_DAY]; omega)
  obtain ⟨hp1, hp2, hp3, hp4⟩ := runLoop_complete o ht f2 (initMovies catalog) 0 []
    (runPass o catalog ⟨none, none⟩ f1).fs.progressFile
    ((runPass o catalog ⟨none, none⟩ f1).fs.progressFile.getD 0)
    (by omega) (by simp only [MAX_REQUESTS_PER_DAY]; omega)
  refine ⟨hq1, hp1, ?_, ?_⟩
  · intro i hi
    by_cases hix : i < catalog.length
    · have hix2 : i < (initMovies catalog).length := by omega
      have hrow : (initMovies catalog)[i]? = some ((initMovies catalog).get ⟨i, hix2⟩) := by
        rw [List.getElem?_eq_getElem hix2]
        rfl
      have e1 := hp3 i ((initMovies catalog).get ⟨i, hix2⟩) hi hrow
      have e2 := hq3 i ((initMovies catalog).get ⟨i, hix2⟩) (Nat.zero_le i) hrow
      exact e1.trans e2.symm
    · have hnone1 : (runPass o catalog (runPass o catalog ⟨none, none⟩ f1).fs f2).movies[i]? =
          none := by
        refine List.getElem?_eq_none ?_
        show (runLoop o f2 (initMovies catalog) 0 []
          (runPass o catalog ⟨none, none⟩ f1).fs.progressFile
          ((runPass o catalog ⟨none, none⟩ f1).fs.progressFile.getD 0)).movies.length ≤ i
        rw [runLoop_movies_length]
        omega
      have hnone2 : (runPass o catalog ⟨none, none⟩ f2).movies[i]? = none := by
        refine List.getElem?_eq_none ?_
        show (runLoop o f2 (initMovies catalog) 0 [] none 0).movies.length ≤ i
        rw [runLoop_movies_length]
        omega
      rw [hnone1, hnone2]
  · intro i hi
    exact hp2 i hi

/-- Witness for C4 (amended) at the `oABC` scenario: the interrupted
two-pass run and the one-pass run agree on row 2 (past the resume point). -/
theorem C4_pass_equivalence_witness :
    (runPass oABC catABC (runPass oABC catABC ⟨none, none⟩ 2).fs 10).movies[2]? =
      (runPass oABC catABC ⟨none, none⟩ 10).movies[2]? := by
  have h := C4_pass_equivalence oABC catABC 2 10 oABC_total (by decide) (by decide)
  exact h.2.2.1 2 (by decide)

/-- C4 counterexample: both the one-pass run and the second of two passes
finish, the budget is ample, yet the final catalogs differ — pass one
resolved row 0 ("A"), the checkpoint then pointed at row 1, and the second
pass (which reloads every enrichment column as None) never revisits row 0,
so its enrichment is lost. -/
theorem C4_counterexample :
    (runPass oABC catABC fs0 10).reason = .finished ∧
    (runPass oABC catABC (runPass oABC catABC fs0 2).fs 10).reason = .finished ∧
    (runPass oABC catABC (runPass oABC catABC fs0 2).fs 10).movies[0]? =
      some ⟨"A", none, none, none⟩ ∧
    (runPass oABC catABC fs0 10).movies[0]? =
      some ⟨"A", some "dir", some "plot", some "box"⟩ ∧
    (runPass oABC catABC (runPass oABC catABC fs0 2).fs 10).movies ≠
      (runPass oABC catABC fs0 10).movies := by
  decide

lemma dropWhile_append_all {α : Type} (pr : α → Bool) :
    ∀ (l₁ l₂ : List α), (∀ a ∈ l₁, pr a = true) →
      List.dropWhile pr (l₁ ++ l₂) = List.dropWhile pr l₂
  | [], _, _ => rfl
  | a :: as, l₂, h => by
    rw [List.cons_append, List.dropWhile_cons, if_pos (h a (List.mem_cons_self a as))]
    exact dropWhile_append_all pr as l₂ (fun x hx => h x (List.mem_cons_of_mem a hx))

lemma beforeLastParen_append (p d : List Char) (hnp : '(' ∉ d) :
    beforeLastParen (p ++ '(' :: (d ++ [')'])) = p := by
  unfold beforeLastParen
  have hrev : (p ++ '(' :: (d ++ [')'])).reverse = (')' :: d.reverse) ++ ('(' :: p.reverse) := by
    simp
  rw [hrev, dropWhile_append_all _ (')' :: d.reverse) ('(' :: p.reverse) ?hall]
  case hall =>
    intro a ha
    rcases List.mem_cons.mp ha with h | h
    · subst h
      decide
    · have : a ∈ d := List.mem_reverse.mp h
      have hne : a ≠ '(' := fun he => hnp (he ▸ this)
      simpa using hne
  rw [List.dropWhile_cons, if_neg (by simp)]
  simp

/-- C7 (amended): a raw title of the claimed shape — ending in `(` followed
by four digits and `)` — is split into the stripped prefix before the last
`(` and exactly those four characters; but the code's test is only
`"(" in title and ")" in title[-5:]`, so the fallback `(title, None)` is
returned exactly when that weaker test fails, not for every title without
a parenthesized-year suffix; the exact query always carries the parsed
pair, so an unparsed title is queried with a null year filter. -/
theorem C7_title_year_parse :
    (∀ (p d : String), d.length = 4 → (∀ c ∈ d.data, c.isDigit = true) →
      extract_title_year (p ++ "(" ++ d ++ ")") = (⟨trimL p.data⟩, some d)) ∧
    (∀ t : String,
      (t.data.contains '(' && (t.data.drop (t.data.length - 5)).contains ')') = false →
      extract_title_year t = (t, none)) ∧
    (∀ (o : Oracle) (row : Row),
      firstCall (processRow o row) =
        some (.exact (extract_title_year row.title).1 (extract_title_year row.title).2)) := by
  refine ⟨?_, ?_, ?_⟩
  · intro p d hd hdig
    have hdata : (p ++ "(" ++ d ++ ")").data = p.data ++ '(' :: (d.data ++ [')']) := by
      simp [String.data_append]
    have hdl : d.data.length = 4 := hd
    simp only [extract_title_year, hdata]
    have hlen : (p.data ++ '(' :: (d.data ++ [')'])).length = p.data.length + 6 := by
      simp [hdl]
    have hdrop : (p.data ++ '(' :: (d.data ++ [')'])).drop
        ((p.data ++ '(' :: (d.data ++ [')'])).length - 5) = d.data ++ [')'] := by
      rw [hlen, show p.data.length + 6 - 5 = p.data.length + 1 from by omega,
        show p.data.length + 1 = p.data.length + 1 from rfl]
      rw [List.drop_append 1]
      simp
    have hcont1 : (p.data ++ '(' :: (d.data ++ [')'])).contains '(' = true :=
      List.elem_iff.mpr (by simp)
    have hcont2 : (d.data ++ [')']).contains ')' = true :=
      List.elem_iff.mpr (by simp)
    rw [hdrop, hcont1, hcont2]
    simp only [Bool.and_self, if_true]
    have hnp : '(' ∉ d.data := by
      intro hm
      simpa using hdig '(' hm
    rw [beforeLastParen_append p.data d.data hnp]
    have htake : (d.data ++ [')']).take ((d.data ++ [')']).length - 1) = d.data := by
      have : (d.data ++ [')']).length - 1 = d.data.length := by simp
      rw [this, List.take_left]
    rw [htake]
  · intro t h
    simp only [extract_title_year]
    rw [h]
    simp
  · intro o row
    cases he : o.exact (extract_title_year row.title).1 (extract_title_year row.title).2 with
    | none => simp [processRow, firstCall, he]
    | some r1 =>
      simp only [processRow, he]
      repeat' split
      all_goals simp [firstCall]

/-- Witness for C7 (amended): the canonical year-shaped title parses into
prefix and year, and a paren-free title keeps a null year. -/
theorem C7_title_year_parse_witness :
    extract_title_year ("Movie " ++ "(" ++ "1995" ++ ")") = ("Movie", some "1995") ∧
    extract_title_year "Heat" = ("Heat", none) := by
  constructor
  · rw [C7_title_year_parse.1 "Movie " "1995" (by decide) (by decide)]
    rfl
  · exact C7_title_year_parse.2.1 "Heat" (by decide)

/-- C7 counterexample: `"(ab)c"` does not end in a parenthesized year, yet
`extract_title_year` does not return it unchanged with a null year — the
weak test `"(" in t and ")" in t[-5:]` fires and produces `("", "(ab)")`. -/
theorem C7_counterexample :
    parenYearSuffix "(ab)c" = false ∧
    extract_title_year "(ab)c" = ("", some "(ab)") ∧
    extract_title_year "(ab)c" ≠ ("(ab)c", none) := by
  decide

end MovieETL
